import Mathlib

/-!
# fitzoh/ws — the session coordinator of `connection.go`

A shallow embedding of `connection.go` (package `main`): the header set and the
control-frame interceptors built by `connect`, the two loops `readConsole` and
`readWebsocket`, and the formatter `bytesToFormattedHex`.

Go strings and byte slices are sequences of bytes.  Calls into collaborators
(readline, gorilla/websocket, fatih/color) are answered by the arguments of
each definition, and every call a function makes is recorded, in order, in
the list of events it returns.
-/

namespace Ws

/-! ## Bytes and strings -/

/-- A Go `byte`. -/
abbrev Byte := Fin 256

/-- A Go `string` or `[]byte`: a sequence of bytes. -/
abbrev GoString := List Byte

/-- The bytes of a string constant of the source; every constant in
`connection.go` is ASCII, one byte per character. -/
def str (s : String) : GoString := s.toList.map (fun c => Fin.ofNat c.toNat)

/-! ## `encoding/hex` -/

/-- The constant `hextable` of `encoding/hex`. -/
def hextable : GoString := str "0123456789abcdef"

/-- The expression `hextable[i]`; the index is `v>>4` or `v&0x0f`, below 16. -/
def hextableAt (i : Nat) : Byte := hextable.getD i 0

/-- The function `hex.Encode` followed by `string(dst)`, that is
`hex.EncodeToString`: for each `v` of `src`, `hextable[v>>4]` then
`hextable[v&0x0f]`. -/
def EncodeToString : List Byte → GoString
  | [] => []
  | v :: src => hextableAt (v.val >>> 4) :: hextableAt (v.val &&& 0x0f) :: EncodeToString src

/-! ## `regexp`: the pattern `(..)` replaced by `$1 ` -/

/-- The size returned by `utf8.DecodeRuneInString` on a non-empty string: the
width in bytes of the first rune, 1 for an ASCII byte and for every invalid
or truncated encoding. -/
def runeWidth : GoString → Nat
  | [] => 0
  | s0 :: rest =>
    let cont (b : Byte) : Bool := 0x80 ≤ b.val && b.val ≤ 0xBF
    let second (lo hi : Nat) : Bool :=
      match rest with
      | s1 :: _ => lo ≤ s1.val && s1.val ≤ hi
      | [] => false
    let third : Bool :=
      match rest with
      | _ :: s2 :: _ => cont s2
      | _ => false
    let fourth : Bool :=
      match rest with
      | _ :: _ :: s3 :: _ => cont s3
      | _ => false
    let size3 (lo hi : Nat) : Nat := if second lo hi && third then 3 else 1
    let size4 (lo hi : Nat) : Nat := if second lo hi && third && fourth then 4 else 1
    if s0.val < 0x80 then 1
    else if s0.val < 0xC2 then 1
    else if s0.val ≤ 0xDF then (if second 0x80 0xBF then 2 else 1)
    else if s0.val = 0xE0 then size3 0xA0 0xBF
    else if s0.val = 0xED then size3 0x80 0x9F
    else if s0.val ≤ 0xEF then size3 0x80 0xBF
    else if s0.val = 0xF0 then size4 0x90 0xBF
    else if s0.val ≤ 0xF3 then size4 0x80 0xBF
    else if s0.val = 0xF4 then size4 0x80 0x8F
    else 1

/-- The regexp atom `.` at the start of `s`: it matches one rune other than
the newline and yields that rune's width; `none` at the end of the text and
on a newline. -/
def matchDot (s : GoString) : Option Nat :=
  match s with
  | [] => none
  | c :: _ => if c.val = 0x0A then none else some (runeWidth s)

/-- The pattern `(..)` anchored at the start of `s`: the width in bytes of
the two runes it matches. -/
def matchPair (s : GoString) : Option Nat :=
  match matchDot s with
  | none => none
  | some w1 =>
    match matchDot (s.drop w1) with
    | none => none
    | some w2 => some (w1 + w2)

/-- The loop of `Regexp.ReplaceAllString` for `regexp.MustCompile("(..)")`
and the template `"$1 "`, scanning `src` from the left: a match is replaced by
its group 1 (the two runes) and a space and the scan resumes after it; where
no match starts, one rune is copied unchanged.  Every step consumes at least
one byte, `fuel` bounds the number of steps. -/
def replaceAllAux : Nat → GoString → GoString
  | 0, _ => []
  | _ + 1, [] => []
  | fuel + 1, c :: cs =>
    match matchPair (c :: cs) with
    | some w => (c :: cs).take w ++ str " " ++ replaceAllAux fuel ((c :: cs).drop w)
    | none =>
      (c :: cs).take (runeWidth (c :: cs)) ++ replaceAllAux fuel ((c :: cs).drop (runeWidth (c :: cs)))

/-- The call `regexp.MustCompile("(..)").ReplaceAllString(src, "$1 ")`. -/
def ReplaceAllString (src : GoString) : GoString := replaceAllAux src.length src

/-- The function `bytesToFormattedHex` of `connection.go`. -/
def bytesToFormattedHex (bytes : List Byte) : GoString :=
  let text := EncodeToString bytes
  ReplaceAllString text

/-! ## `error` values and `fmt` -/

/-- A non-nil Go `error`: either a value handed over by a collaborator
(`io.EOF`, a network error, ...), told apart by a tag, or the value that
`fmt.Errorf` builds from a format without `%w`, which carries its message. -/
inductive GoError where
  | foreign (tag : Nat)
  | errorString (s : GoString)
  deriving DecidableEq, Repr

/-- The digit loop of `fmt.(*fmt).fmtInteger` in base 10: digits are written
from the least significant one, in front of what is already in `buf`. -/
def fmtDigits : Nat → Nat → GoString → GoString
  | 0, u, buf => Fin.ofNat (48 + u) :: buf
  | fuel + 1, u, buf =>
    if 10 ≤ u then
      let next := u / 10
      fmtDigits fuel next (Fin.ofNat (48 + (u - next * 10)) :: buf)
    else Fin.ofNat (48 + u) :: buf

/-- The verb `%d` applied to an `int`: a minus sign for a negative value, then
the decimal digits of its magnitude. -/
def fmtInteger (n : Int) : GoString :=
  let negative := n < 0
  let u := n.natAbs
  let digits := fmtDigits u u []
  if negative then 45 :: digits else digits

/-- An operand of `fmt.Sprintf`. -/
inductive Arg where
  | string (s : GoString)
  | int (n : Int)

/-- The function `fmt.Sprintf` for the verbs that `connection.go` uses: `%s`
consumes a string operand and `%d` an integer operand; every other byte of the
format is copied. -/
def Sprintf : GoString → List Arg → GoString
  | [], _ => []
  | [c], _ => [c]
  | c :: v :: format, args =>
    if c.val = 37 then
      match args with
      | Arg.string s :: rest =>
        if v.val = 115 then s ++ Sprintf format rest else c :: Sprintf (v :: format) args
      | Arg.int n :: rest =>
        if v.val = 100 then fmtInteger n ++ Sprintf format rest else c :: Sprintf (v :: format) args
      | [] => c :: Sprintf (v :: format) args
    else c :: Sprintf (v :: format) args

/-- The function `fmt.Errorf` for a format without `%w`. -/
def Errorf (format : GoString) (args : List Arg) : GoError :=
  GoError.errorString (Sprintf format args)

/-- The function returned by `color.New(color.FgGreen).SprintfFunc()`:
`fmt.Sprintf`, then the colour wrapping `wrap` of the result. -/
def SprintfFunc (wrap : GoString → GoString) (format : GoString) (args : List Arg) : GoString :=
  wrap (Sprintf format args)

/-! ## `net/http`: the header set -/

/-- A Go `http.Header`: keys with their values, in order of first insertion. -/
abbrev Header := List (GoString × List GoString)

/-- The table `isTokenTable` behind `validHeaderFieldByte`: letters, digits and
the punctuation allowed in a header field name. -/
def validHeaderFieldByte (c : Byte) : Bool :=
  (48 ≤ c.val && c.val ≤ 57) || (65 ≤ c.val && c.val ≤ 90) || (97 ≤ c.val && c.val ≤ 122)
    || [33, 35, 36, 37, 38, 39, 42, 43, 45, 46, 94, 95, 96, 124, 126].contains c.val

/-- The case loop of `textproto.canonicalMIMEHeaderKey`: a letter that starts
the key or follows a hyphen is made upper case, every other letter lower
case. -/
def canonicalCase : Bool → GoString → GoString
  | _, [] => []
  | upper, c :: rest =>
    let c1 : Byte :=
      if upper && 97 ≤ c.val && c.val ≤ 122 then Fin.ofNat (c.val - 32)
      else if !upper && 65 ≤ c.val && c.val ≤ 90 then Fin.ofNat (c.val + 32)
      else c
    c1 :: canonicalCase (c1.val = 45) rest

/-- The function `textproto.CanonicalMIMEHeaderKey`: a key holding a byte that
is not allowed in a field name is returned unchanged. -/
def CanonicalMIMEHeaderKey (s : GoString) : GoString :=
  if s.all validHeaderFieldByte then canonicalCase true s else s

/-- The statement `h[key] = append(h[key], value)` on the header map. -/
def Header.append : Header → GoString → GoString → Header
  | [], key, value => [(key, [value])]
  | (k, vs) :: h, key, value =>
    if k = key then (k, vs ++ [value]) :: h else (k, vs) :: Header.append h key value

/-- The method `http.Header.Add`. -/
def Header.Add (h : Header) (key value : GoString) : Header :=
  Header.append h (CanonicalMIMEHeaderKey key) value

/-! ## `gorilla/websocket` -/

/-- The constant `websocket.TextMessage`. -/
def TextMessage : Int := 1

/-- The constant `websocket.BinaryMessage`. -/
def BinaryMessage : Int := 2

/-- The constant `websocket.PingMessage`. -/
def PingMessage : Int := 9

/-- The two loops that `connect` starts with a `go` statement. -/
inductive Loop where
  | readConsole
  | readWebsocket
  deriving DecidableEq, Repr

/-- The calls that `connection.go` makes into its collaborators, each with its
arguments and, where the code reads it, with what the call returned. -/
inductive Event where
  /-- The call `dialer.Dial(url, headers)` of a dialer whose TLS configuration
  has the given `InsecureSkipVerify`. -/
  | Dial (urlStr : GoString) (requestHeader : Header) (InsecureSkipVerify : Bool)
  /-- The call `readline.NewEx(rlConf)`. -/
  | NewEx
  /-- The call `ws.SetPongHandler(...)`. -/
  | SetPongHandler
  /-- The call `ws.SetPingHandler(...)`. -/
  | SetPingHandler
  /-- A `go` statement starting a loop. -/
  | Go (f : Loop)
  /-- The receive `<-sess.errChan`, with the value received. -/
  | Receive (err : GoError)
  /-- The call `rl.Close()`. -/
  | rlClose
  /-- The call `ws.Close()`. -/
  | wsClose
  /-- The call `s.rl.Readline()`, with the line and error it returned. -/
  | Readline (line : GoString) (err : Option GoError)
  /-- The call `s.ws.WriteMessage(messageType, data)`, with the error it returned. -/
  | WriteMessage (messageType : Int) (data : GoString) (err : Option GoError)
  /-- The call `s.ws.ReadMessage()`, with the three values it returned. -/
  | ReadMessage (messageType : Int) (p : GoString) (err : Option GoError)
  /-- The call `fmt.Fprint(rl.Stdout(), s)`. -/
  | Fprint (s : GoString)
  /-- The send `s.errChan <- err`. -/
  | Send (err : GoError)
  deriving DecidableEq, Repr

/-- A control-frame handler, `func(appData string) error`: the calls it makes
and the error it returns. -/
abbrev Handler := GoString → List Event × Option GoError

/-- The handler fields of a `*websocket.Conn`. -/
structure Conn where
  handlePing : Handler
  handlePong : Handler

/-- The method `(*Conn).PingHandler`. -/
def Conn.PingHandler (c : Conn) : Handler := c.handlePing

/-- The method `(*Conn).PongHandler`. -/
def Conn.PongHandler (c : Conn) : Handler := c.handlePong

/-- The method `(*Conn).SetPingHandler` with a non-nil handler. -/
def Conn.SetPingHandler (c : Conn) (h : Handler) : Conn := { c with handlePing := h }

/-- The method `(*Conn).SetPongHandler` with a non-nil handler. -/
def Conn.SetPongHandler (c : Conn) (h : Handler) : Conn := { c with handlePong := h }

/-! ## `connection.go` -/

/-- The handler fields of the struct `session`, set once when `connect` builds
it. -/
structure session where
  pingHandler : Handler
  pongHandler : Handler

/-- The header set built at the top of `connect`. -/
def connectHeaders (origin authHeader : GoString) : Header :=
  let headers : Header := []
  let headers := headers.Add (str "Origin") origin
  if authHeader ≠ str "" then headers.Add (str "Authorization") authHeader else headers

/-- The closure that `connect` passes to `ws.SetPongHandler`. -/
def pongInterceptor (wrap : GoString → GoString) (sess : session) : Handler :=
  fun appData =>
    let rxSprintf := SprintfFunc wrap
    let written := Event.Fprint (rxSprintf (str "< %s\n") [Arg.string (str "< PONG")])
    let (calls, err) := sess.pongHandler appData
    (written :: calls, err)

/-- The closure that `connect` passes to `ws.SetPingHandler`. -/
def pingInterceptor (wrap : GoString → GoString) (sess : session) : Handler :=
  fun appData =>
    let rxSprintf := SprintfFunc wrap
    let written := Event.Fprint (rxSprintf (str "< %s\n") [Arg.string (str "> PING")])
    let (calls, err) := sess.pingHandler appData
    (written :: calls, err)

/-- What a run of `connect` leaves behind: the calls it made in order, the
error it returned (`none` while it is still blocked receiving from `errChan`),
and the connection with the handlers it installed, when it got that far.  A
deferred `rl.Close()` is the last call made before the error is returned. -/
structure Outcome where
  events : List Event
  returned : Option GoError
  ws : Option Conn

/-- The function `connect`.  The collaborators answer through its last
arguments: `dialed` is what `dialer.Dial` returns, `newExErr` the error of
`readline.NewEx`, and `received` the first value that arrives on
`sess.errChan` (`none` when none ever does). -/
def connect (wrap : GoString → GoString) (url origin authHeader : GoString)
    (allowInsecure : Bool) (dialed : Except GoError Conn) (newExErr : Option GoError)
    (received : Option GoError) : Outcome :=
  let headers := connectHeaders origin authHeader
  let dial := Event.Dial url headers allowInsecure
  match dialed with
  | .error err => { events := [dial], returned := some err, ws := none }
  | .ok ws =>
    match newExErr with
    | some err => { events := [dial, Event.NewEx], returned := some err, ws := some ws }
    | none =>
      let sess : session := { pingHandler := ws.PingHandler, pongHandler := ws.PongHandler }
      let ws := ws.SetPongHandler (pongInterceptor wrap sess)
      let ws := ws.SetPingHandler (pingInterceptor wrap sess)
      let started := [dial, Event.NewEx, Event.SetPongHandler, Event.SetPingHandler,
        Event.Go Loop.readConsole, Event.Go Loop.readWebsocket]
      match received with
      | none => { events := started, returned := none, ws := some ws }
      | some err =>
        { events := started ++ [Event.Receive err, Event.rlClose], returned := some err,
          ws := some ws }

/-- The method `session.readConsole`.  `WriteMessage n t data` is the error
that the `n`-th call of `s.ws.WriteMessage`, made with `(t, data)`, returns;
the list holds what the successive calls of `s.rl.Readline` return, and the
loop stays blocked in `Readline` once the list is used up. -/
def readConsole (WriteMessage : Nat → Int → GoString → Option GoError) :
    Nat → List (GoString × Option GoError) → List Event
  | _, [] => []
  | _, (line, some err) :: _ => [Event.Readline line (some err), Event.Send err]
  | n, (line, none) :: rest =>
    if line = str "ping" then
      match WriteMessage n PingMessage [] with
      | some err =>
        [Event.Readline line none, Event.WriteMessage PingMessage [] (some err), Event.Send err]
      | none =>
        Event.Readline line none :: Event.WriteMessage PingMessage [] none
          :: readConsole WriteMessage (n + 1) rest
    else
      match WriteMessage n TextMessage line with
      | some err =>
        [Event.Readline line none, Event.WriteMessage TextMessage line (some err), Event.Send err]
      | none =>
        Event.Readline line none :: Event.WriteMessage TextMessage line none
          :: readConsole WriteMessage (n + 1) rest

/-- The method `session.readWebsocket`.  The list holds what the successive
calls of `s.ws.ReadMessage` return, and the loop stays blocked in
`ReadMessage` once the list is used up. -/
def readWebsocket (wrap : GoString → GoString) :
    List (Int × GoString × Option GoError) → List Event
  | [] => []
  | (msgType, buf, some err) :: _ => [Event.ReadMessage msgType buf (some err), Event.Send err]
  | (msgType, buf, none) :: rest =>
    let rxSprintf := SprintfFunc wrap
    if msgType = TextMessage then
      let text := buf
      Event.ReadMessage msgType buf none
        :: Event.Fprint (rxSprintf (str "< %s\n") [Arg.string text]) :: readWebsocket wrap rest
    else if msgType = BinaryMessage then
      let text := bytesToFormattedHex buf
      Event.ReadMessage msgType buf none
        :: Event.Fprint (rxSprintf (str "< %s\n") [Arg.string text]) :: readWebsocket wrap rest
    else
      [Event.ReadMessage msgType buf none,
        Event.Send (Errorf (str "unknown websocket frame type: %d") [Arg.int msgType])]

/-! ## The running session -/

/-- The error of a send, none for any other event. -/
def sendOf : Event → Option GoError
  | Event.Send err => some err
  | _ => none

/-- The value of a receive, none for any other event. -/
def receiveOf : Event → Option GoError
  | Event.Receive err => some err
  | _ => none

/-- A moment of a session after the two `go` statements of `connect`: what
each loop has still to do, what both have done so far in the order in which
it happened, and the value that the receive `<-sess.errChan` of `connect` has
taken, if it has taken one. -/
structure Running where
  console : List Event
  socket : List Event
  done : List Event
  received : Option GoError

/-- What a loop has still to do. -/
def Running.todo (s : Running) : Loop → List Event
  | Loop.readConsole => s.console
  | Loop.readWebsocket => s.socket

/-- The session in which a loop has `todo` left to do. -/
def Running.setTodo (s : Running) (who : Loop) (todo : List Event) : Running :=
  match who with
  | Loop.readConsole => { s with console := todo }
  | Loop.readWebsocket => { s with socket := todo }

/-- One turn of the goroutine `who`: it makes its next call.  `errChan` is made
with `make(chan error)`, without a buffer, and `connect` receives from it once:
a send completes when nothing has been received yet, handing its error to that
receive, and never completes afterwards.  A loop with nothing left to do is
blocked in its read. -/
def step (who : Loop) (s : Running) : Running :=
  match s.todo who with
  | [] => s
  | ev :: rest =>
    match sendOf ev with
    | none => { s.setTodo who rest with done := s.done ++ [ev] }
    | some err =>
      match s.received with
      | none => { s.setTodo who rest with done := s.done ++ [ev], received := some err }
      | some _ => s

/-- The session after the goroutines have taken their turns in the order of
`schedule`. -/
def run (schedule : List Loop) (s : Running) : Running :=
  schedule.foldl (fun s who => step who s) s

/-- The two loops started by `connect`, run concurrently under `schedule`:
`readConsole` with the answers `W` and `rs` of its collaborators,
`readWebsocket` with `wrap` and `fs`. -/
def runLoops (W : Nat → Int → GoString → Option GoError)
    (rs : List (GoString × Option GoError)) (wrap : GoString → GoString)
    (fs : List (Int × GoString × Option GoError)) (schedule : List Loop) : Running :=
  run schedule
    { console := readConsole W 0 rs, socket := readWebsocket wrap fs, done := [],
      received := none }

/-- The function `connect` after a successful handshake and console creation,
with its receive taking what the running session `s` hands over. -/
def connectAfter (wrap : GoString → GoString) (url origin authHeader : GoString)
    (allowInsecure : Bool) (ws : Conn) (s : Running) : Outcome :=
  connect wrap url origin authHeader allowInsecure (.ok ws) none s.received

/-- What the caller of `connect` gets.  The deferred `rl.Close()` runs after
the operand of `return` has been evaluated and before `connect` returns, so
when that call is the last one made the caller gets the error only if the call
returns; whether it does is up to readline, and is given by `rlCloseReturns`. -/
def handedToCaller (rlCloseReturns : Bool) (o : Outcome) : Option GoError :=
  if o.events.getLast? = some Event.rlClose then
    if rlCloseReturns then o.returned else none
  else o.returned

/-! ## Vocabulary of the specification -/

/-- The lowercase hexadecimal digit of a value below 16, as a byte:
`0`–`9` then `a`–`f`. -/
def lowerHexDigit (d : Nat) : Byte := if d < 10 then Fin.ofNat (48 + d) else Fin.ofNat (87 + d)

/-- The two lowercase hex digits of a byte followed by one space. -/
def hexPairSpace (v : Byte) : GoString :=
  [lowerHexDigit (v.val / 16), lowerHexDigit (v.val % 16), 32]

/-- The frame that the console grammar assigns to a line: the line `ping`
is a ping control frame with an empty payload, every other line a text frame
whose payload is the line. -/
def expectedFrame (L : GoString) : Int × GoString :=
  if L = str "ping" then (PingMessage, []) else (TextMessage, L)

/-- What `readConsole` does after its `n`-th call of `WriteMessage` returned:
the error is sent and the loop is left, or the loop starts over. -/
def consoleAfterWrite (WriteMessage : Nat → Int → GoString → Option GoError) (n : Nat)
    (rest : List (GoString × Option GoError)) : Option GoError → List Event
  | some err => [Event.Send err]
  | none => readConsole WriteMessage (n + 1) rest

/-- The rendering of a received frame: the payload itself for a text frame,
its grouped hex form for a binary frame, none for any other type. -/
def rendering (t : Int) (buf : GoString) : Option GoString :=
  if t = TextMessage then some buf
  else if t = BinaryMessage then some (bytesToFormattedHex buf)
  else none

/-- The text of a display line: `< `, the rendered text and a newline, inside
the colour wrapping. -/
def displayLine (wrap : GoString → GoString) (text : GoString) : GoString :=
  wrap (str "< " ++ text ++ str "\n")

/-- The error for a frame of type `t` that is neither text nor binary: its
message is `unknown websocket frame type: ` followed by `t` in decimal. -/
def unknownFrameType (t : Int) : GoError :=
  GoError.errorString (str "unknown websocket frame type: " ++ fmtInteger t)

/-- The value of a string of decimal digits. -/
def digitsValue (ds : GoString) : Nat := ds.foldl (fun a c => 10 * a + (c.val - 48)) 0

/-- The integer that a decimal numeral denotes: an optional minus sign, then
digits. -/
def decimalValue : GoString → Int
  | [] => 0
  | c :: ds => if c.val = 45 then -(digitsValue ds : Int) else (digitsValue (c :: ds) : Int)

/-- What `readWebsocket` does after `ReadMessage` returned a frame without
error. -/
def websocketAfterRead (wrap : GoString → GoString)
    (rest : List (Int × GoString × Option GoError)) (t : Int) (buf : GoString) : List Event :=
  match rendering t buf with
  | some text => Event.Fprint (displayLine wrap text) :: readWebsocket wrap rest
  | none => [Event.Send (unknownFrameType t)]

/-! ## Theorems -/

/-! ### `bytesToFormattedHex` -/

theorem hextableAt_eq_lowerHexDigit : ∀ d : Nat, d < 16 → hextableAt d = lowerHexDigit d := by
  decide

theorem lowerHexDigit_ascii : ∀ d : Nat, d < 16 →
    (lowerHexDigit d).val < 0x80 ∧ (lowerHexDigit d).val ≠ 0x0A := by
  decide

theorem matchDot_ascii (a : Byte) (rest : GoString) (h : a.val < 0x80) (hn : a.val ≠ 0x0A) :
    matchDot (a :: rest) = some 1 := by
  simp [matchDot, runeWidth, h, hn]

theorem matchPair_ascii (a b : Byte) (rest : GoString) (ha : a.val < 0x80) (han : a.val ≠ 0x0A)
    (hb : b.val < 0x80) (hbn : b.val ≠ 0x0A) : matchPair (a :: b :: rest) = some 2 := by
  simp [matchPair, matchDot_ascii a (b :: rest) ha han, matchDot_ascii b rest hb hbn]

theorem encode_cons (v : Byte) (src : List Byte) :
    EncodeToString (v :: src) =
      lowerHexDigit (v.val / 16) :: lowerHexDigit (v.val % 16) :: EncodeToString src := by
  have h1 : v.val >>> 4 = v.val / 16 := by simp [Nat.shiftRight_eq_div_pow]
  have h2 : v.val &&& 0x0f = v.val % 16 := Nat.and_pow_two_sub_one_eq_mod v.val 4
  have hv := v.isLt
  simp only [EncodeToString, h1, h2]
  rw [hextableAt_eq_lowerHexDigit _ (by omega), hextableAt_eq_lowerHexDigit _ (by omega)]

theorem encode_length (src : List Byte) : (EncodeToString src).length = 2 * src.length := by
  induction src with
  | nil => rfl
  | cons v src ih => simp [EncodeToString, ih]; omega

theorem replaceAllAux_encode (src : List Byte) :
    ∀ fuel, src.length ≤ fuel →
      replaceAllAux fuel (EncodeToString src) = src.flatMap hexPairSpace := by
  induction src with
  | nil => intro fuel _; cases fuel <;> rfl
  | cons v src ih =>
    intro fuel hf
    cases fuel with
    | zero => simp at hf
    | succ fuel =>
      have hv := v.isLt
      have hhi := lowerHexDigit_ascii (v.val / 16) (by omega)
      have hlo := lowerHexDigit_ascii (v.val % 16) (by omega)
      rw [encode_cons]
      simp only [replaceAllAux, matchPair_ascii _ _ _ hhi.1 hhi.2 hlo.1 hlo.2]
      rw [List.flatMap_cons]
      simp only [List.take, List.drop]
      rw [ih fuel (by simpa using hf)]
      simp [hexPairSpace, str]
      rfl

theorem bytesToFormattedHex_eq (b : List Byte) :
    bytesToFormattedHex b = b.flatMap hexPairSpace := by
  unfold bytesToFormattedHex ReplaceAllString
  exact replaceAllAux_encode b _ (by rw [encode_length]; omega)

theorem flatMap_hexPairSpace_length (b : List Byte) :
    (b.flatMap hexPairSpace).length = 3 * b.length := by
  induction b with
  | nil => rfl
  | cons v b ih => rw [List.flatMap_cons, List.length_append, ih]; simp [hexPairSpace]; omega

/-- C2: for every byte sequence `b`, `bytesToFormattedHex b` (hex encoding, then
the regexp replacement of `(..)` by `$1 `) is the in-order concatenation, over
the bytes of `b`, of the byte's two lowercase hex digits followed by one
space; its length is three times the length of `b`; the empty sequence gives
the empty string, `[0x00]` gives `00 ` and `[0xAB, 0xCD]` gives `ab cd `, each
with its trailing space. -/
theorem bytesToFormattedHex_grouped_hex (b : List Byte) :
    bytesToFormattedHex b = b.flatMap hexPairSpace
      ∧ (bytesToFormattedHex b).length = 3 * b.length
      ∧ bytesToFormattedHex [] = str ""
      ∧ bytesToFormattedHex [0x00] = str "00 "
      ∧ bytesToFormattedHex [0xAB, 0xCD] = str "ab cd " := by
  refine ⟨bytesToFormattedHex_eq b, ?_, by decide, by decide, by decide⟩
  rw [bytesToFormattedHex_eq, flatMap_hexPairSpace_length]

/-! ### `readConsole` -/

theorem readConsole_step (W : Nat → Int → GoString → Option GoError) (n : Nat)
    (line : GoString) (rest : List (GoString × Option GoError)) :
    readConsole W n ((line, none) :: rest) =
      Event.Readline line none
        :: Event.WriteMessage (expectedFrame line).1 (expectedFrame line).2
            (W n (expectedFrame line).1 (expectedFrame line).2)
        :: consoleAfterWrite W n rest (W n (expectedFrame line).1 (expectedFrame line).2) := by
  unfold readConsole expectedFrame
  by_cases hp : line = str "ping"
  · simp only [hp, if_true]
    cases h : W n PingMessage [] <;> simp [consoleAfterWrite, h]
  · simp only [hp, if_false]
    cases h : W n TextMessage line <;> simp [consoleAfterWrite, h]

theorem readConsole_head (W : Nat → Int → GoString → Option GoError) (n : Nat)
    (rs : List (GoString × Option GoError)) :
    readConsole W n rs = [] ∨ ∃ l e tl, readConsole W n rs = Event.Readline l e :: tl := by
  cases rs with
  | nil => left; rfl
  | cons r rs =>
    right
    obtain ⟨l, e⟩ := r
    cases e with
    | some e => exact ⟨l, some e, _, rfl⟩
    | none => exact ⟨l, none, _, readConsole_step W n l rs⟩

/-- From any `Readline` on, a run of `readConsole` is a run of `readConsole`. -/
theorem readConsole_suffix (W : Nat → Int → GoString → Option GoError) :
    ∀ (rs : List (GoString × Option GoError)) (n : Nat) (pre post : List Event)
      (line : GoString) (err : Option GoError),
      readConsole W n rs = pre ++ Event.Readline line err :: post →
      ∃ m rest, Event.Readline line err :: post = readConsole W m ((line, err) :: rest) := by
  intro rs
  induction rs with
  | nil => intro n pre post line err h; simp [readConsole] at h
  | cons r rs ih =>
    intro n pre post line err h
    obtain ⟨l, e⟩ := r
    cases e with
    | some e =>
      simp only [readConsole] at h
      cases pre with
      | nil =>
        simp only [List.nil_append, List.cons.injEq, Event.Readline.injEq] at h
        obtain ⟨⟨rfl, rfl⟩, rfl⟩ := h
        exact ⟨n, rs, by simp [readConsole]⟩
      | cons a pre =>
        cases pre with
        | nil => simp at h
        | cons b pre => cases pre <;> simp at h
    | none =>
      cases pre with
      | nil =>
        rw [List.nil_append] at h
        have h0 := h
        rw [readConsole_step] at h0
        simp only [List.cons.injEq, Event.Readline.injEq] at h0
        obtain ⟨⟨rfl, rfl⟩, -⟩ := h0
        exact ⟨n, rs, h.symm⟩
      | cons a pre =>
        rw [readConsole_step] at h
        cases pre with
        | nil => simp at h
        | cons b pre =>
          simp only [List.cons_append, List.cons.injEq] at h
          obtain ⟨-, -, h⟩ := h
          cases hw : W n (expectedFrame l).1 (expectedFrame l).2 with
          | some e =>
            rw [hw] at h
            cases pre <;> simp [consoleAfterWrite] at h
          | none =>
            rw [hw] at h
            exact ih (n + 1) pre post line err h

/-- Every `WriteMessage` call of `readConsole` comes right after a `Readline`
that returned no error, carries the frame of that line, and is followed by
what `consoleAfterWrite` does with its result. -/
theorem readConsole_write (W : Nat → Int → GoString → Option GoError) :
    ∀ (rs : List (GoString × Option GoError)) (n : Nat) (pre post : List Event)
      (t : Int) (d : GoString) (e : Option GoError),
      readConsole W n rs = pre ++ Event.WriteMessage t d e :: post →
      ∃ pre0 line m rest, pre = pre0 ++ [Event.Readline line none]
        ∧ (t, d) = expectedFrame line ∧ post = consoleAfterWrite W m rest e := by
  intro rs
  induction rs with
  | nil => intro n pre post t d e h; simp [readConsole] at h
  | cons r rs ih =>
    intro n pre post t d e h
    obtain ⟨l, e0⟩ := r
    cases e0 with
    | some e0 =>
      simp only [readConsole] at h
      cases pre with
      | nil => simp at h
      | cons a pre =>
        cases pre with
        | nil => simp at h
        | cons b pre => cases pre <;> simp at h
    | none =>
      rw [readConsole_step] at h
      cases pre with
      | nil => simp at h
      | cons a pre =>
        cases pre with
        | nil =>
          simp only [List.cons_append, List.nil_append, List.cons.injEq,
            Event.WriteMessage.injEq] at h
          obtain ⟨rfl, ⟨h1, h2, h3⟩, h4⟩ := h
          exact ⟨[], l, n, rs, rfl, by rw [← h1, ← h2], by rw [← h4, h3]⟩
        | cons b pre =>
          simp only [List.cons_append, List.cons.injEq] at h
          obtain ⟨rfl, rfl, h⟩ := h
          cases hw : W n (expectedFrame l).1 (expectedFrame l).2 with
          | some e1 =>
            rw [hw] at h
            cases pre <;> simp [consoleAfterWrite] at h
          | none =>
            rw [hw] at h
            obtain ⟨pre0, line, m, rest, hpre, hf, hpost⟩ := ih (n + 1) pre post t d e h
            exact ⟨Event.Readline l none
              :: Event.WriteMessage (expectedFrame l).1 (expectedFrame l).2 none :: pre0, line, m, rest,
              by simp [hpre], hf, hpost⟩

/-- A send of `readConsole` is its last event, the only send, and comes right
after the call that returned the error sent. -/
theorem readConsole_send (W : Nat → Int → GoString → Option GoError) :
    ∀ (rs : List (GoString × Option GoError)) (n : Nat) (pre post : List Event) (e : GoError),
      readConsole W n rs = pre ++ Event.Send e :: post →
      post = [] ∧ (∀ e0, Event.Send e0 ∉ pre)
        ∧ ((∃ pre0 line, pre = pre0 ++ [Event.Readline line (some e)])
          ∨ (∃ pre0 t d, pre = pre0 ++ [Event.WriteMessage t d (some e)])) := by
  intro rs
  induction rs with
  | nil => intro n pre post e h; simp [readConsole] at h
  | cons r rs ih =>
    intro n pre post e h
    obtain ⟨l, e0⟩ := r
    cases e0 with
    | some e0 =>
      simp only [readConsole] at h
      cases pre with
      | nil => simp at h
      | cons a pre =>
        cases pre with
        | nil =>
          simp only [List.cons_append, List.nil_append, List.cons.injEq, Event.Send.injEq] at h
          obtain ⟨rfl, ⟨rfl, h2⟩⟩ := h
          exact ⟨h2.symm, by simp, Or.inl ⟨[], l, rfl⟩⟩
        | cons b pre => cases pre <;> simp at h
    | none =>
      rw [readConsole_step] at h
      cases pre with
      | nil => simp at h
      | cons a pre =>
        cases pre with
        | nil => simp at h
        | cons b pre =>
          simp only [List.cons_append, List.cons.injEq] at h
          obtain ⟨rfl, rfl, h⟩ := h
          cases hw : W n (expectedFrame l).1 (expectedFrame l).2 with
          | some e1 =>
            rw [hw] at h
            cases pre with
            | nil =>
              simp only [consoleAfterWrite, List.nil_append, List.cons.injEq,
                Event.Send.injEq] at h
              obtain ⟨rfl, h2⟩ := h
              exact ⟨h2.symm, by simp, Or.inr ⟨[Event.Readline l none], _, _, rfl⟩⟩
            | cons c pre => cases pre <;> simp [consoleAfterWrite] at h
          | none =>
            rw [hw] at h
            obtain ⟨hpost, hno, hlast⟩ := ih (n + 1) pre post e h
            refine ⟨hpost, ?_, ?_⟩
            · intro e0 hmem
              simp only [List.mem_cons] at hmem
              rcases hmem with hmem | hmem | hmem
              · cases hmem
              · cases hmem
              · exact hno e0 hmem
            · rcases hlast with ⟨pre0, line, hp⟩ | ⟨pre0, t, d, hp⟩
              · exact Or.inl ⟨Event.Readline l none
              :: Event.WriteMessage (expectedFrame l).1 (expectedFrame l).2 none :: pre0, line,
                  by simp [hp]⟩
              · exact Or.inr ⟨Event.Readline l none
              :: Event.WriteMessage (expectedFrame l).1 (expectedFrame l).2 none :: pre0, t, d,
                  by simp [hp]⟩

/-! ### `fmt` -/

theorem Sprintf_copy (c v : Byte) (format : GoString) (args : List Arg) (h : c.val ≠ 37) :
    Sprintf (c :: v :: format) args = c :: Sprintf (v :: format) args := by
  simp [Sprintf, h]

theorem Sprintf_verb_s (s : GoString) (format : GoString) (rest : List Arg) :
    Sprintf (37 :: 115 :: format) (Arg.string s :: rest) = s ++ Sprintf format rest := by
  have h1 : ((37 : Byte).val = 37) := rfl
  have h2 : ((115 : Byte).val = 115) := rfl
  simp [Sprintf, h1, h2]

theorem Sprintf_verb_d (n : Int) (format : GoString) (rest : List Arg) :
    Sprintf (37 :: 100 :: format) (Arg.int n :: rest) = fmtInteger n ++ Sprintf format rest := by
  have h1 : ((37 : Byte).val = 37) := rfl
  have h2 : ((100 : Byte).val = 100) := rfl
  simp [Sprintf, h1, h2]

/-- The bytes of a format in front of its first verb are copied. -/
theorem Sprintf_literal (pre : GoString) (hpre : ∀ c ∈ pre, c.val ≠ 37) (v : Byte)
    (format : GoString) (args : List Arg) :
    Sprintf (pre ++ 37 :: v :: format) args = pre ++ Sprintf (37 :: v :: format) args := by
  induction pre with
  | nil => rfl
  | cons c pre ih =>
    have hc : c.val ≠ 37 := hpre c (by simp)
    have ih1 := ih (fun c hc1 => hpre c (by simp [hc1]))
    cases pre with
    | nil =>
      rw [List.cons_append, List.nil_append, Sprintf_copy _ _ _ _ hc, List.cons_append,
        List.nil_append]
    | cons c1 pre =>
      rw [List.cons_append, List.cons_append, Sprintf_copy _ _ _ _ hc, ← List.cons_append, ih1]
      rfl

set_option maxRecDepth 4096 in
theorem Sprintf_line (s : GoString) :
    Sprintf (str "< %s\n") [Arg.string s] = str "< " ++ s ++ str "\n" := by
  have h1 : str "< %s\n" = str "< " ++ 37 :: 115 :: str "\n" := by decide
  have h0 : ∀ c ∈ str "< ", c.val ≠ 37 := by decide
  rw [h1, Sprintf_literal (str "< ") h0, Sprintf_verb_s]
  have h2 : Sprintf (str "\n") [] = str "\n" := by decide
  rw [h2, List.append_assoc]

set_option maxRecDepth 4096 in
theorem Sprintf_unknown (t : Int) :
    Sprintf (str "unknown websocket frame type: %d") [Arg.int t]
      = str "unknown websocket frame type: " ++ fmtInteger t := by
  have h1 : str "unknown websocket frame type: %d"
      = str "unknown websocket frame type: " ++ 37 :: 100 :: [] := by decide
  have h0 : ∀ c ∈ str "unknown websocket frame type: ", c.val ≠ 37 := by decide
  rw [h1, Sprintf_literal (str "unknown websocket frame type: ") h0, Sprintf_verb_d]
  have h2 : Sprintf [] [] = [] := by rfl
  rw [h2, List.append_nil]

theorem ofNat_val (a : Nat) : (Fin.ofNat a : Byte).val = a % 256 := rfl

theorem digitsValue_snoc (ds : GoString) (d : Byte) :
    digitsValue (ds ++ [d]) = 10 * digitsValue ds + (d.val - 48) := by
  simp [digitsValue, List.foldl_append]

theorem fmtDigits_spec : ∀ (fuel u : Nat), u ≤ fuel →
    ∃ ds : GoString, (∀ buf, fmtDigits fuel u buf = ds ++ buf) ∧ digitsValue ds = u
      ∧ (∀ c ∈ ds, 48 ≤ c.val ∧ c.val ≤ 57) ∧ ds ≠ [] := by
  intro fuel
  induction fuel with
  | zero =>
    intro u hu
    have hu0 : u = 0 := by omega
    subst hu0
    refine ⟨[Fin.ofNat 48], fun buf => rfl, by decide, ?_, by simp⟩
    intro c hc
    simp only [List.mem_singleton] at hc
    subst hc
    rw [ofNat_val]
    omega
  | succ fuel ih =>
    intro u hu
    by_cases h10 : 10 ≤ u
    · obtain ⟨ds, hds, hval, hdig, -⟩ := ih (u / 10) (by omega)
      refine ⟨ds ++ [Fin.ofNat (48 + (u - u / 10 * 10))], ?_, ?_, ?_, by simp⟩
      · intro buf
        simp only [fmtDigits, h10, if_true]
        rw [hds]
        simp
      · rw [digitsValue_snoc, hval, ofNat_val]
        omega
      · intro c hc
        simp only [List.mem_append, List.mem_singleton] at hc
        rcases hc with hc | hc
        · exact hdig c hc
        · subst hc
          rw [ofNat_val]
          omega
    · refine ⟨[Fin.ofNat (48 + u)], ?_, ?_, ?_, by simp⟩
      · intro buf
        simp only [fmtDigits, h10, if_false]
        rfl
      · simp only [digitsValue, List.foldl, ofNat_val]
        omega
      · intro c hc
        simp only [List.mem_singleton] at hc
        subst hc
        rw [ofNat_val]
        omega

/-- Reading back the numeral that `%d` prints gives the integer printed. -/
theorem decimalValue_fmtInteger (t : Int) : decimalValue (fmtInteger t) = t := by
  obtain ⟨ds, hds, hval, hdig, hne⟩ := fmtDigits_spec t.natAbs t.natAbs le_rfl
  have hfmt : fmtDigits t.natAbs t.natAbs [] = ds := by rw [hds, List.append_nil]
  unfold fmtInteger
  simp only [hfmt]
  by_cases hneg : t < 0
  · have h45 : ((45 : Byte).val = 45) := rfl
    simp only [hneg, decide_True, if_true, decimalValue, h45, hval]
    omega
  · cases ds with
    | nil => exact absurd rfl hne
    | cons c ds =>
      have hc := hdig c (by simp)
      have hc45 : c.val ≠ 45 := by omega
      simp only [hneg, decide_False, decimalValue, hc45, if_false, hval]
      simp
      omega

theorem fmtInteger_injective (t1 t2 : Int) (h : fmtInteger t1 = fmtInteger t2) : t1 = t2 := by
  rw [← decimalValue_fmtInteger t1, ← decimalValue_fmtInteger t2, h]

/-! ### `readWebsocket` -/

theorem readWebsocket_step (wrap : GoString → GoString) (t : Int) (buf : GoString)
    (rest : List (Int × GoString × Option GoError)) :
    readWebsocket wrap ((t, buf, none) :: rest) =
      Event.ReadMessage t buf none :: websocketAfterRead wrap rest t buf := by
  unfold readWebsocket websocketAfterRead rendering
  by_cases h1 : t = TextMessage
  · simp [h1, SprintfFunc, Sprintf_line, displayLine]
  · by_cases h2 : t = BinaryMessage
    · have h3 : BinaryMessage ≠ TextMessage := by decide
      simp [h2, h3, SprintfFunc, Sprintf_line, displayLine]
    · simp [h1, h2, Errorf, Sprintf_unknown, unknownFrameType]

theorem websocketAfterRead_cases (wrap : GoString → GoString)
    (rest : List (Int × GoString × Option GoError)) (t : Int) (buf : GoString) :
    (∃ text, rendering t buf = some text
        ∧ websocketAfterRead wrap rest t buf
          = Event.Fprint (displayLine wrap text) :: readWebsocket wrap rest)
      ∨ (rendering t buf = none
        ∧ websocketAfterRead wrap rest t buf = [Event.Send (unknownFrameType t)]) := by
  unfold websocketAfterRead
  cases h : rendering t buf with
  | some text => exact Or.inl ⟨text, rfl, rfl⟩
  | none => exact Or.inr ⟨rfl, rfl⟩

/-- From any `ReadMessage` on, a run of `readWebsocket` is a run of
`readWebsocket` on what is left of the answers at that call. -/
theorem readWebsocket_suffix (wrap : GoString → GoString) :
    ∀ (fs : List (Int × GoString × Option GoError)) (pre post : List Event)
      (t : Int) (p : GoString) (err : Option GoError),
      readWebsocket wrap fs = pre ++ Event.ReadMessage t p err :: post →
      ∃ consumed rest, fs = consumed ++ (t, p, err) :: rest
        ∧ Event.ReadMessage t p err :: post = readWebsocket wrap ((t, p, err) :: rest) := by
  intro fs
  induction fs with
  | nil => intro pre post t p err h; simp [readWebsocket] at h
  | cons f fs ih =>
    intro pre post t p err h
    obtain ⟨t0, p0, e0⟩ := f
    cases e0 with
    | some e0 =>
      simp only [readWebsocket] at h
      cases pre with
      | nil =>
        simp only [List.nil_append, List.cons.injEq, Event.ReadMessage.injEq] at h
        obtain ⟨⟨rfl, rfl, rfl⟩, rfl⟩ := h
        exact ⟨[], fs, rfl, by simp [readWebsocket]⟩
      | cons a pre =>
        cases pre with
        | nil => simp at h
        | cons b pre => cases pre <;> simp at h
    | none =>
      cases pre with
      | nil =>
        rw [List.nil_append] at h
        have h0 := h
        rw [readWebsocket_step] at h0
        simp only [List.cons.injEq, Event.ReadMessage.injEq] at h0
        obtain ⟨⟨rfl, rfl, rfl⟩, -⟩ := h0
        exact ⟨[], fs, rfl, h.symm⟩
      | cons a pre =>
        rw [readWebsocket_step] at h
        simp only [List.cons_append, List.cons.injEq] at h
        obtain ⟨-, h⟩ := h
        rcases websocketAfterRead_cases wrap fs t0 p0 with ⟨text, -, hw⟩ | ⟨-, hw⟩
        · rw [hw] at h
          cases pre with
          | nil => simp at h
          | cons b pre =>
            simp only [List.cons_append, List.cons.injEq] at h
            obtain ⟨consumed, rest, hfs, hs⟩ := ih pre post t p err h.2
            exact ⟨(t0, p0, none) :: consumed, rest, by rw [hfs]; rfl, hs⟩
        · rw [hw] at h
          cases pre <;> simp at h

/-- Every console write of `readWebsocket` comes right after a `ReadMessage`
that returned a frame with a rendering, is the display line of that rendering,
and is followed by the loop starting over. -/
theorem readWebsocket_fprint (wrap : GoString → GoString) :
    ∀ (fs : List (Int × GoString × Option GoError)) (pre post : List Event) (s : GoString),
      readWebsocket wrap fs = pre ++ Event.Fprint s :: post →
      ∃ pre0 t buf text rest, pre = pre0 ++ [Event.ReadMessage t buf none]
        ∧ rendering t buf = some text ∧ s = displayLine wrap text
        ∧ post = readWebsocket wrap rest := by
  intro fs
  induction fs with
  | nil => intro pre post s h; simp [readWebsocket] at h
  | cons f fs ih =>
    intro pre post s h
    obtain ⟨t0, p0, e0⟩ := f
    cases e0 with
    | some e0 =>
      simp only [readWebsocket] at h
      cases pre with
      | nil => simp at h
      | cons a pre =>
        cases pre with
        | nil => simp at h
        | cons b pre => cases pre <;> simp at h
    | none =>
      rw [readWebsocket_step] at h
      cases pre with
      | nil => simp at h
      | cons a pre =>
        simp only [List.cons_append, List.cons.injEq] at h
        obtain ⟨rfl, h⟩ := h
        rcases websocketAfterRead_cases wrap fs t0 p0 with ⟨text, hr, hw⟩ | ⟨-, hw⟩
        · rw [hw] at h
          cases pre with
          | nil =>
            simp only [List.nil_append, List.cons.injEq, Event.Fprint.injEq] at h
            exact ⟨[], t0, p0, text, fs, rfl, hr, h.1.symm, h.2.symm⟩
          | cons b pre =>
            simp only [List.cons_append, List.cons.injEq] at h
            obtain ⟨rfl, h⟩ := h
            obtain ⟨pre0, t, buf, text1, rest, hpre, hr1, hs, hpost⟩ := ih pre post s h
            exact ⟨Event.ReadMessage t0 p0 none :: Event.Fprint (displayLine wrap text) :: pre0,
              t, buf, text1, rest, by simp [hpre], hr1, hs, hpost⟩
        · rw [hw] at h
          cases pre <;> simp at h

/-- A send of `readWebsocket` is its last event, the only send, and comes
right after the `ReadMessage` that returned the error sent or a frame without
a rendering. -/
theorem readWebsocket_send (wrap : GoString → GoString) :
    ∀ (fs : List (Int × GoString × Option GoError)) (pre post : List Event) (e : GoError),
      readWebsocket wrap fs = pre ++ Event.Send e :: post →
      post = [] ∧ (∀ e0, Event.Send e0 ∉ pre)
        ∧ ((∃ pre0 t p, pre = pre0 ++ [Event.ReadMessage t p (some e)])
          ∨ (∃ pre0 t p, pre = pre0 ++ [Event.ReadMessage t p none]
              ∧ rendering t p = none ∧ e = unknownFrameType t)) := by
  intro fs
  induction fs with
  | nil => intro pre post e h; simp [readWebsocket] at h
  | cons f fs ih =>
    intro pre post e h
    obtain ⟨t0, p0, e0⟩ := f
    cases e0 with
    | some e0 =>
      simp only [readWebsocket] at h
      cases pre with
      | nil => simp at h
      | cons a pre =>
        cases pre with
        | nil =>
          simp only [List.cons_append, List.nil_append, List.cons.injEq, Event.Send.injEq] at h
          obtain ⟨rfl, ⟨rfl, h2⟩⟩ := h
          exact ⟨h2.symm, by simp, Or.inl ⟨[], t0, p0, rfl⟩⟩
        | cons b pre => cases pre <;> simp at h
    | none =>
      rw [readWebsocket_step] at h
      cases pre with
      | nil => simp at h
      | cons a pre =>
        simp only [List.cons_append, List.cons.injEq] at h
        obtain ⟨rfl, h⟩ := h
        rcases websocketAfterRead_cases wrap fs t0 p0 with ⟨text, hr, hw⟩ | ⟨hr, hw⟩
        · rw [hw] at h
          cases pre with
          | nil => simp at h
          | cons b pre =>
            simp only [List.cons_append, List.cons.injEq] at h
            obtain ⟨rfl, h⟩ := h
            obtain ⟨hpost, hno, hlast⟩ := ih pre post e h
            refine ⟨hpost, ?_, ?_⟩
            · intro e1 hmem
              simp only [List.mem_cons] at hmem
              rcases hmem with hmem | hmem | hmem
              · cases hmem
              · cases hmem
              · exact hno e1 hmem
            · rcases hlast with ⟨pre0, t, p, hp⟩ | ⟨pre0, t, p, hp, hn, he⟩
              · exact Or.inl ⟨Event.ReadMessage t0 p0 none
                  :: Event.Fprint (displayLine wrap text) :: pre0, t, p, by simp [hp]⟩
              · exact Or.inr ⟨Event.ReadMessage t0 p0 none
                  :: Event.Fprint (displayLine wrap text) :: pre0, t, p, by simp [hp], hn, he⟩
        · rw [hw] at h
          cases pre with
          | nil =>
            simp only [List.nil_append, List.cons.injEq, Event.Send.injEq] at h
            exact ⟨h.2.symm, by simp, Or.inr ⟨[], t0, p0, rfl, hr, h.1.symm⟩⟩
          | cons b pre => cases pre <;> simp at h

/-! ### `connect` -/

/-- The connection that `connect` leaves behind once the console exists: the
dialed connection with both interceptors installed, each closing over the
handlers read from the connection beforehand. -/
theorem connect_ws (wrap : GoString → GoString) (url origin authHeader : GoString)
    (allowInsecure : Bool) (ws : Conn) (received : Option GoError) :
    (connect wrap url origin authHeader allowInsecure (.ok ws) none received).ws
      = some ((ws.SetPongHandler
          (pongInterceptor wrap ⟨ws.PingHandler, ws.PongHandler⟩)).SetPingHandler
          (pingInterceptor wrap ⟨ws.PingHandler, ws.PongHandler⟩)) := by
  cases received <;> rfl

/-! ### The running session -/

theorem sendOf_eq_some (ev : Event) (e : GoError) : sendOf ev = some e ↔ ev = Event.Send e := by
  cases ev <;> simp [sendOf]

theorem sendOf_eq_none (ev : Event) : sendOf ev = none ↔ ∀ e, ev ≠ Event.Send e := by
  cases ev <;> simp [sendOf]

theorem step_nil (who : Loop) (s : Running) (hc : s.todo who = []) : step who s = s := by
  simp only [step, hc]

theorem step_event (who : Loop) (s : Running) (ev : Event) (rest : List Event)
    (hc : s.todo who = ev :: rest) (hs : sendOf ev = none) :
    step who s = { s.setTodo who rest with done := s.done ++ [ev] } := by
  simp only [step, hc, hs]

theorem step_send (who : Loop) (s : Running) (ev : Event) (rest : List Event) (err : GoError)
    (hc : s.todo who = ev :: rest) (hs : sendOf ev = some err) (hr : s.received = none) :
    step who s
      = { s.setTodo who rest with done := s.done ++ [ev], received := some err } := by
  simp only [step, hc, hs, hr]

theorem step_blocked (who : Loop) (s : Running) (ev : Event) (rest : List Event)
    (err e : GoError)
    (hc : s.todo who = ev :: rest) (hs : sendOf ev = some err) (hr : s.received = some e) :
    step who s = s := by
  simp only [step, hc, hs, hr]

/-- The four ways a step can go. -/
theorem step_cases (who : Loop) (s : Running) :
    step who s = s
      ∨ (∃ ev rest, s.todo who = ev :: rest ∧ sendOf ev = none
          ∧ step who s = { s.setTodo who rest with done := s.done ++ [ev] })
      ∨ (∃ ev rest err, s.todo who = ev :: rest ∧ sendOf ev = some err ∧ s.received = none
          ∧ step who s
            = { s.setTodo who rest with done := s.done ++ [ev], received := some err }) := by
  cases hc : s.todo who with
  | nil => exact Or.inl (step_nil who s hc)
  | cons ev rest =>
    cases hs : sendOf ev with
    | none => exact Or.inr (Or.inl ⟨ev, rest, rfl, hs, step_event who s ev rest hc hs⟩)
    | some err =>
      cases hr : s.received with
      | none => exact Or.inr (Or.inr ⟨ev, rest, err, rfl, hs, rfl, step_send who s ev rest err hc hs hr⟩)
      | some e => exact Or.inl (step_blocked who s ev rest err e hc hs hr)

theorem setTodo_received (s : Running) (who : Loop) (l : List Event) :
    (s.setTodo who l).received = s.received := by cases who <;> rfl

theorem setTodo_done (s : Running) (who : Loop) (l : List Event) :
    (s.setTodo who l).done = s.done := by cases who <;> rfl

theorem step_received (who : Loop) (s : Running) (e : GoError) (h : s.received = some e) :
    (step who s).received = some e := by
  rcases step_cases who s with h1 | ⟨ev, rest, -, -, h1⟩ | ⟨ev, rest, err, -, -, hr, -⟩
  · rw [h1]; exact h
  · rw [h1]; simp [setTodo_received, h]
  · rw [h] at hr; cases hr

theorem run_received (schedule : List Loop) :
    ∀ (s : Running) (e : GoError), s.received = some e → (run schedule s).received = some e := by
  induction schedule with
  | nil => intro s e h; exact h
  | cons who schedule ih =>
    intro s e h
    exact ih (step who s) e (step_received who s e h)

theorem run_append (a b : List Loop) (s : Running) : run (a ++ b) s = run b (run a s) := by
  simp [run, List.foldl_append]

theorem run_cons (who : Loop) (schedule : List Loop) (s : Running) :
    run (who :: schedule) s = run schedule (step who s) := rfl

/-- An invariant of steps is an invariant of runs. -/
theorem run_invariant (P : Running → Prop) (hstep : ∀ who s, P s → P (step who s))
    (schedule : List Loop) : ∀ s, P s → P (run schedule s) := by
  induction schedule with
  | nil => intro s h; exact h
  | cons who schedule ih => intro s h; exact ih (step who s) (hstep who s h)

theorem step_done (who : Loop) (s : Running)
    (h : s.done.filterMap sendOf = s.received.toList) :
    (step who s).done.filterMap sendOf = (step who s).received.toList := by
  rcases step_cases who s with h1 | ⟨ev, rest, -, hs, h1⟩ | ⟨ev, rest, err, -, hs, hr, h1⟩
  · rw [h1]; exact h
  · rw [h1]
    simp [setTodo_received, setTodo_done, List.filterMap_append, hs, h]
  · rw [h1]
    rw [hr] at h
    simp [setTodo_done, List.filterMap_append, hs, h]

theorem mem_setTodo (s : Running) (who who1 : Loop) (ev : Event) (rest : List Event)
    (hc : s.todo who = ev :: rest) (x : Event) (hx : x ∈ (s.setTodo who rest).todo who1) :
    x ∈ s.todo who1 := by
  cases who <;> cases who1 <;> simp_all [Running.setTodo, Running.todo]

theorem step_origin (C S : List Event) (who : Loop) (s : Running)
    (h : (∀ who1, ∀ x ∈ s.todo who1, x ∈ Running.todo ⟨C, S, [], none⟩ who1)
      ∧ ∀ e, s.received = some e → Event.Send e ∈ C ∨ Event.Send e ∈ S) :
    (∀ who1, ∀ x ∈ (step who s).todo who1, x ∈ Running.todo ⟨C, S, [], none⟩ who1)
      ∧ ∀ e, (step who s).received = some e → Event.Send e ∈ C ∨ Event.Send e ∈ S := by
  rcases step_cases who s with h1 | ⟨ev, rest, hc, hs, h1⟩ | ⟨ev, rest, err, hc, hs, hr, h1⟩
  · rw [h1]; exact h
  · rw [h1]
    refine ⟨?_, ?_⟩
    · intro who1 x hx
      exact h.1 who1 x (mem_setTodo s who who1 ev rest hc x hx)
    · intro e he
      exact h.2 e (by simpa [setTodo_received] using he)
  · rw [h1]
    refine ⟨?_, ?_⟩
    · intro who1 x hx
      exact h.1 who1 x (mem_setTodo s who who1 ev rest hc x hx)
    · intro e he
      simp only [Option.some.injEq] at he
      subst he
      have hev : ev = Event.Send err := (sendOf_eq_some ev err).1 hs
      have hmem := h.1 who ev (by rw [hc]; simp)
      rw [hev] at hmem
      cases who
      · exact Or.inl hmem
      · exact Or.inr hmem


theorem todo_setTodo_same (s : Running) (who : Loop) (l : List Event) :
    (s.setTodo who l).todo who = l := by cases who <;> rfl

theorem todo_setTodo_other (s : Running) (who who1 : Loop) (l : List Event) (h : who1 ≠ who) :
    (s.setTodo who l).todo who1 = s.todo who1 := by
  cases who <;> cases who1 <;> first | rfl | exact absurd rfl h

theorem todo_with (r : Running) (d : List Event) (x : Option GoError) (who1 : Loop) :
    Running.todo { r with done := d, received := x } who1 = r.todo who1 := by
  cases who1 <;> rfl

/-- A loop whose remaining events end with the only send still to come, while
no other loop has a send to come and nothing has been received: whatever the
schedule, nothing or that error is received, and it is received once the loop
has had as many turns as it has events left. -/
theorem loop_wins (who : Loop) (schedule : List Loop) :
    ∀ (s : Running) (pre : List Event) (e : GoError),
      s.todo who = pre ++ [Event.Send e] → (∀ ev ∈ pre, sendOf ev = none) →
      (∀ who1, who1 ≠ who → ∀ ev ∈ s.todo who1, sendOf ev = none) → s.received = none →
      ((run schedule s).received = none ∨ (run schedule s).received = some e)
        ∧ (pre.length + 1 ≤ schedule.count who → (run schedule s).received = some e) := by
  induction schedule with
  | nil =>
    intro s pre e _ _ _ hr
    exact ⟨Or.inl hr, fun h => by simp at h⟩
  | cons w schedule ih =>
    intro s pre e htodo hpre hother hr
    rw [run_cons]
    by_cases hw : w = who
    · subst hw
      cases pre with
      | nil =>
        have hs : sendOf (Event.Send e) = some e := rfl
        have h1 := step_send w s (Event.Send e) [] e (by simpa using htodo) hs hr
        have h2 : (run schedule (step w s)).received = some e :=
          run_received schedule _ e (by rw [h1])
        exact ⟨Or.inr h2, fun _ => h2⟩
      | cons ev pre =>
        have hs : sendOf ev = none := hpre ev (by simp)
        have h1 := step_event w s ev (pre ++ [Event.Send e]) (by simpa using htodo) hs
        have ih1 := ih (step w s) pre e
          (by rw [h1]; exact (todo_with _ _ _ _).trans (todo_setTodo_same s w _))
          (fun x hx => hpre x (by simp [hx]))
          (by
            intro who1 hne x hx
            rw [h1] at hx
            have hx1 : x ∈ (s.setTodo w (pre ++ [Event.Send e])).todo who1 := by
              rw [← todo_with _ (s.done ++ [ev]) (s.setTodo w (pre ++ [Event.Send e])).received]
              exact hx
            rw [todo_setTodo_other s w who1 _ hne] at hx1
            exact hother who1 hne x hx1)
          (by rw [h1]; simp [setTodo_received, hr])
        refine ⟨ih1.1, fun hlen => ih1.2 ?_⟩
        simp only [List.length_cons, List.count_cons, beq_self_eq_true, if_true] at hlen
        omega
    · have hcount : (w :: schedule).count who = schedule.count who := by
        simp [List.count_cons, hw]
      rw [hcount]
      have hne : who ≠ w := fun h => hw h.symm
      rcases step_cases w s with h1 | ⟨ev, rest, hc, hs, h1⟩ | ⟨ev, rest, err, hc, hs, -, -⟩
      · rw [h1]
        exact ih s pre e htodo hpre hother hr
      · rw [h1]
        refine ih _ pre e ?_ hpre ?_ ?_
        · exact (todo_with _ _ _ _).trans ((todo_setTodo_other s w who rest hne).trans htodo)
        · intro who1 hne1 x hx
          have hx1 : x ∈ (s.setTodo w rest).todo who1 := by
            rw [← todo_with _ (s.done ++ [ev]) (s.setTodo w rest).received]
            exact hx
          exact hother who1 hne1 x (mem_setTodo s w who1 ev rest hc x hx1)
        · simp [setTodo_received, hr]
      · have hnone := hother w hw ev (by rw [hc]; simp)
        rw [hnone] at hs
        cases hs

/-! ### Properties of the specification -/

/-- C1: in any run of `readConsole`, every `Readline` that returned a line
without error is followed at once by exactly one `WriteMessage` call, made
with the frame of that line, and no `WriteMessage` call is made otherwise.  The
frame of the line `ping` is a ping with an empty payload, never a text frame;
the frame of every other line, the empty line and `Ping`, `ping ` and ` ping`
among them, is a text frame whose payload is the line byte for byte.  The same
line fed twice gives the same frame twice. -/
theorem readConsole_one_frame_per_line (W : Nat → Int → GoString → Option GoError) (n : Nat)
    (rs : List (GoString × Option GoError)) :
    (∀ pre line post, readConsole W n rs = pre ++ Event.Readline line none :: post →
        ∃ err rest,
          post = Event.WriteMessage (expectedFrame line).1 (expectedFrame line).2 err :: rest
            ∧ ∀ t d e tl, rest ≠ Event.WriteMessage t d e :: tl)
      ∧ (∀ pre t d e post, readConsole W n rs = pre ++ Event.WriteMessage t d e :: post →
        ∃ pre0 line, pre = pre0 ++ [Event.Readline line none] ∧ (t, d) = expectedFrame line)
      ∧ expectedFrame (str "ping") = (PingMessage, [])
      ∧ PingMessage ≠ TextMessage
      ∧ (∀ L, L ≠ str "ping" → expectedFrame L = (TextMessage, L))
      ∧ expectedFrame (str "") = (TextMessage, str "")
      ∧ expectedFrame (str "Ping") = (TextMessage, str "Ping")
      ∧ expectedFrame (str "ping ") = (TextMessage, str "ping ")
      ∧ expectedFrame (str " ping") = (TextMessage, str " ping")
      ∧ (∀ L, readConsole (fun _ _ _ => none) 0 [(L, none), (L, none)] =
          [Event.Readline L none,
            Event.WriteMessage (expectedFrame L).1 (expectedFrame L).2 none,
            Event.Readline L none,
            Event.WriteMessage (expectedFrame L).1 (expectedFrame L).2 none]) := by
  refine ⟨?_, ?_, by decide, by decide, ?_, by decide, by decide, by decide, by decide, ?_⟩
  · intro pre line post h
    obtain ⟨m, rest, hs⟩ := readConsole_suffix W rs n pre post line none h
    rw [readConsole_step] at hs
    simp only [List.cons.injEq, true_and] at hs
    refine ⟨_, _, hs, ?_⟩
    intro t d e tl
    cases hw : W m (expectedFrame line).1 (expectedFrame line).2 with
    | some e1 => simp [consoleAfterWrite]
    | none =>
      simp only [consoleAfterWrite]
      rcases readConsole_head W (m + 1) rest with h0 | ⟨l, e0, tl0, h0⟩ <;> rw [h0] <;> simp
  · intro pre t d e post h
    obtain ⟨pre0, line, -, -, hpre, hf, -⟩ := readConsole_write W rs n pre post t d e h
    exact ⟨pre0, line, hpre, hf⟩
  · intro L hL
    simp [expectedFrame, hL]
  · intro L
    rw [readConsole_step, consoleAfterWrite, readConsole_step, consoleAfterWrite]
    rfl

/-- C3: in any run of `readWebsocket`, a text frame read without error is
followed at once by one console write of `< `, the payload bytes unchanged and
a newline (inside the colour wrapping); a binary frame read without error by
one console write of `< `, `bytesToFormattedHex` of the payload and a newline;
after that write the loop starts over on the answers that are left, and as long
as an answer is left its next event is the next `ReadMessage`; the loop writes
to the console at no other time.  On the answers themselves: a run that starts
with a text or binary frame is that read, that write, and then the run on the
remaining answers; a run on text and binary frames followed by further answers
is one read and one write per frame, in order, followed by the run on the
further answers. -/
theorem readWebsocket_display_line (wrap : GoString → GoString)
    (fs : List (Int × GoString × Option GoError)) :
    (∀ pre buf post,
        readWebsocket wrap fs = pre ++ Event.ReadMessage TextMessage buf none :: post →
        ∃ consumed rest, fs = consumed ++ (TextMessage, buf, none) :: rest
          ∧ post = Event.Fprint (wrap (str "< " ++ buf ++ str "\n"))
            :: readWebsocket wrap rest)
      ∧ (∀ pre buf post,
        readWebsocket wrap fs = pre ++ Event.ReadMessage BinaryMessage buf none :: post →
        ∃ consumed rest, fs = consumed ++ (BinaryMessage, buf, none) :: rest
          ∧ post = Event.Fprint (wrap (str "< " ++ bytesToFormattedHex buf ++ str "\n"))
            :: readWebsocket wrap rest)
      ∧ (∀ pre s post, readWebsocket wrap fs = pre ++ Event.Fprint s :: post →
        ∃ pre0 t buf, pre = pre0 ++ [Event.ReadMessage t buf none]
          ∧ (t = TextMessage ∨ t = BinaryMessage))
      ∧ (∀ rest, readWebsocket wrap rest = []
          ∨ ∃ t p e tl, readWebsocket wrap rest = Event.ReadMessage t p e :: tl)
      ∧ (∀ t p e rest, ∃ tl,
          readWebsocket wrap ((t, p, e) :: rest) = Event.ReadMessage t p e :: tl)
      ∧ (∀ buf rest, readWebsocket wrap ((TextMessage, buf, none) :: rest)
          = Event.ReadMessage TextMessage buf none
            :: Event.Fprint (wrap (str "< " ++ buf ++ str "\n")) :: readWebsocket wrap rest)
      ∧ (∀ buf rest, readWebsocket wrap ((BinaryMessage, buf, none) :: rest)
          = Event.ReadMessage BinaryMessage buf none
            :: Event.Fprint (wrap (str "< " ++ bytesToFormattedHex buf ++ str "\n"))
            :: readWebsocket wrap rest)
      ∧ (∀ frames : List (Int × GoString), ∀ rest,
          (∀ f ∈ frames, f.1 = TextMessage ∨ f.1 = BinaryMessage) →
          readWebsocket wrap (frames.map (fun f => (f.1, f.2, none)) ++ rest)
            = frames.flatMap (fun f =>
                [Event.ReadMessage f.1 f.2 none,
                  Event.Fprint (wrap (str "< "
                    ++ (if f.1 = TextMessage then f.2 else bytesToFormattedHex f.2)
                    ++ str "\n"))])
              ++ readWebsocket wrap rest)
      ∧ readWebsocket id
          [(TextMessage, str "hi", none), (BinaryMessage, [0xAB, 0xCD], none),
            (TextMessage, str "", none)]
          = [Event.ReadMessage TextMessage (str "hi") none, Event.Fprint (str "< hi\n"),
              Event.ReadMessage BinaryMessage [0xAB, 0xCD] none, Event.Fprint (str "< ab cd \n"),
              Event.ReadMessage TextMessage (str "") none, Event.Fprint (str "< \n")] := by
  have htext : ∀ buf rest, readWebsocket wrap ((TextMessage, buf, none) :: rest)
      = Event.ReadMessage TextMessage buf none
        :: Event.Fprint (wrap (str "< " ++ buf ++ str "\n")) :: readWebsocket wrap rest := by
    intro buf rest
    rw [readWebsocket_step]
    simp [websocketAfterRead, rendering, displayLine]
  have hbin : ∀ buf rest, readWebsocket wrap ((BinaryMessage, buf, none) :: rest)
      = Event.ReadMessage BinaryMessage buf none
        :: Event.Fprint (wrap (str "< " ++ bytesToFormattedHex buf ++ str "\n"))
        :: readWebsocket wrap rest := by
    intro buf rest
    have h3 : BinaryMessage ≠ TextMessage := by decide
    rw [readWebsocket_step]
    simp [websocketAfterRead, rendering, displayLine, h3]
  refine ⟨?_, ?_, ?_, ?_, ?_, htext, hbin, ?_, by decide⟩
  · intro pre buf post h
    obtain ⟨consumed, rest, hfs, hs⟩ :=
      readWebsocket_suffix wrap fs pre post TextMessage buf none h
    rw [htext] at hs
    simp only [List.cons.injEq, true_and] at hs
    exact ⟨consumed, rest, hfs, hs⟩
  · intro pre buf post h
    obtain ⟨consumed, rest, hfs, hs⟩ :=
      readWebsocket_suffix wrap fs pre post BinaryMessage buf none h
    rw [hbin] at hs
    simp only [List.cons.injEq, true_and] at hs
    exact ⟨consumed, rest, hfs, hs⟩
  · intro pre s post h
    obtain ⟨pre0, t, buf, text, -, hpre, hr, -, -⟩ := readWebsocket_fprint wrap fs pre post s h
    refine ⟨pre0, t, buf, hpre, ?_⟩
    unfold rendering at hr
    by_cases h1 : t = TextMessage
    · exact Or.inl h1
    · by_cases h2 : t = BinaryMessage
      · exact Or.inr h2
      · simp [h1, h2] at hr
  · intro rest
    cases rest with
    | nil => left; rfl
    | cons f rest =>
      right
      obtain ⟨t, p, e⟩ := f
      cases e with
      | some e => exact ⟨t, p, some e, _, rfl⟩
      | none => exact ⟨t, p, none, _, readWebsocket_step wrap t p rest⟩
  · intro t p e rest
    cases e with
    | some e => exact ⟨_, rfl⟩
    | none => exact ⟨_, readWebsocket_step wrap t p rest⟩
  · intro frames rest hframes
    induction frames with
    | nil => rfl
    | cons f frames ih =>
      obtain ⟨t, buf⟩ := f
      have ih1 := ih (fun g hg => hframes g (by simp [hg]))
      have ht : t = TextMessage ∨ t = BinaryMessage := hframes (t, buf) (by simp)
      rw [List.map_cons, List.cons_append, List.flatMap_cons]
      rcases ht with ht | ht
      · subst ht
        rw [htext, ih1]
        simp
      · subst ht
        have h3 : BinaryMessage ≠ TextMessage := by decide
        rw [hbin, ih1]
        simp [h3]

/-- C4: in any run of `readWebsocket`, after a frame read without error whose
type `t` is neither text nor binary, the one thing the loop still does is send
the error whose message is `unknown websocket frame type: ` followed by `t` in
decimal: no console write, no further read.  The numeral reads back as `t`, so
frames of different types give different errors. -/
theorem readWebsocket_unknown_frame_type (wrap : GoString → GoString)
    (fs : List (Int × GoString × Option GoError)) (pre post : List Event) (t : Int)
    (buf : GoString)
    (h : readWebsocket wrap fs = pre ++ Event.ReadMessage t buf none :: post)
    (ht : t ≠ TextMessage) (hb : t ≠ BinaryMessage) :
    post = [Event.Send
        (GoError.errorString (str "unknown websocket frame type: " ++ fmtInteger t))]
      ∧ decimalValue (fmtInteger t) = t
      ∧ (∀ t2 : Int,
          GoError.errorString (str "unknown websocket frame type: " ++ fmtInteger t)
            = GoError.errorString (str "unknown websocket frame type: " ++ fmtInteger t2) →
          t = t2) := by
  refine ⟨?_, decimalValue_fmtInteger t, ?_⟩
  · obtain ⟨-, rest, -, hs⟩ := readWebsocket_suffix wrap fs pre post t buf none h
    rw [readWebsocket_step] at hs
    simp only [List.cons.injEq, true_and] at hs
    rw [hs]
    simp [websocketAfterRead, rendering, ht, hb, unknownFrameType]
  · intro t2 h2
    simp only [GoError.errorString.injEq] at h2
    exact fmtInteger_injective t t2 (List.append_cancel_left h2)

/-- C4, at a close frame (type 8) arriving first. -/
theorem readWebsocket_unknown_frame_type_witness :
    readWebsocket id [(8, [], none), (1, str "late", none)]
        = [] ++ Event.ReadMessage 8 [] none
          :: [Event.Send (GoError.errorString (str "unknown websocket frame type: 8"))]
      ∧ [Event.Send (GoError.errorString (str "unknown websocket frame type: 8"))]
        = [Event.Send
            (GoError.errorString (str "unknown websocket frame type: " ++ fmtInteger 8))] :=
  have h : readWebsocket id [(8, [], none), (1, str "late", none)]
      = [] ++ Event.ReadMessage 8 [] none
        :: [Event.Send (GoError.errorString (str "unknown websocket frame type: 8"))] := by
    decide
  ⟨h, (readWebsocket_unknown_frame_type id [(8, [], none), (1, str "late", none)] [] _ 8 []
    h (by decide) (by decide)).1⟩

/-- C5: once the handshake and console creation have succeeded, under every
schedule of the two loops the operand of the `return` of `connect` is what its
one receive took, and the caller gets it once the deferred `rl.Close()`, which
is readline's to answer, has returned.  What the receive took is the first
send completed by either loop: at most one send ever completes, it is a send
of `readConsole` or of `readWebsocket`, and no later turn changes it.  When
`Readline` fails with `e` and `readWebsocket` never comes to a send (it stays
blocked in `ReadMessage`), nothing but `e` is ever received, and `e` is
received and returned once `readConsole` has had its turns; likewise for an
error of `ReadMessage` while `readConsole` never comes to a send.  Three runs
are spelled out: end of input on the console while the socket loop has read
one frame and is blocked, and the race of two failing loops in both orders. -/
theorem connect_returns_first_outcome (wrap : GoString → GoString)
    (url origin authHeader : GoString) (allowInsecure : Bool) (ws : Conn)
    (W : Nat → Int → GoString → Option GoError) (rs : List (GoString × Option GoError))
    (fs : List (Int × GoString × Option GoError)) (schedule : List Loop) :
    (connectAfter wrap url origin authHeader allowInsecure ws
        (runLoops W rs wrap fs schedule)).returned = (runLoops W rs wrap fs schedule).received
      ∧ (∀ rlCloseReturns, handedToCaller rlCloseReturns
          (connectAfter wrap url origin authHeader allowInsecure ws
            (runLoops W rs wrap fs schedule))
          = if rlCloseReturns then (runLoops W rs wrap fs schedule).received else none)
      ∧ (connectAfter wrap url origin authHeader allowInsecure ws
          (runLoops W rs wrap fs schedule)).events.filterMap receiveOf
          = (runLoops W rs wrap fs schedule).received.toList
      ∧ (runLoops W rs wrap fs schedule).done.filterMap sendOf
          = (runLoops W rs wrap fs schedule).received.toList
      ∧ (∀ e more, (runLoops W rs wrap fs schedule).received = some e →
          (runLoops W rs wrap fs (schedule ++ more)).received = some e)
      ∧ (∀ e, (runLoops W rs wrap fs schedule).received = some e →
          Event.Send e ∈ readConsole W 0 rs ∨ Event.Send e ∈ readWebsocket wrap fs)
      ∧ (∀ line e, Event.Readline line (some e) ∈ readConsole W 0 rs →
          (∀ e0, Event.Send e0 ∉ readWebsocket wrap fs) →
          ((runLoops W rs wrap fs schedule).received = none
              ∨ (runLoops W rs wrap fs schedule).received = some e)
            ∧ ((readConsole W 0 rs).length ≤ schedule.count Loop.readConsole →
              (connectAfter wrap url origin authHeader allowInsecure ws
                (runLoops W rs wrap fs schedule)).returned = some e))
      ∧ (∀ t p e, Event.ReadMessage t p (some e) ∈ readWebsocket wrap fs →
          (∀ e0, Event.Send e0 ∉ readConsole W 0 rs) →
          ((runLoops W rs wrap fs schedule).received = none
              ∨ (runLoops W rs wrap fs schedule).received = some e)
            ∧ ((readWebsocket wrap fs).length ≤ schedule.count Loop.readWebsocket →
              (connectAfter wrap url origin authHeader allowInsecure ws
                (runLoops W rs wrap fs schedule)).returned = some e))
      ∧ (connectAfter id url origin authHeader allowInsecure ws
          (runLoops (fun _ _ _ => none) [(str "hi", none), (str "", some (GoError.foreign 0))] id
            [(TextMessage, str "x", none)]
            [Loop.readWebsocket, Loop.readConsole, Loop.readConsole, Loop.readWebsocket,
              Loop.readConsole, Loop.readConsole, Loop.readWebsocket])).returned
          = some (GoError.foreign 0)
      ∧ (connectAfter id url origin authHeader allowInsecure ws
          (runLoops (fun _ _ _ => none) [(str "", some (GoError.foreign 0))] id
            [(0, [], some (GoError.foreign 1))]
            [Loop.readConsole, Loop.readWebsocket, Loop.readConsole, Loop.readWebsocket,
              Loop.readWebsocket])).returned
          = some (GoError.foreign 0)
      ∧ (connectAfter id url origin authHeader allowInsecure ws
          (runLoops (fun _ _ _ => none) [(str "", some (GoError.foreign 0))] id
            [(0, [], some (GoError.foreign 1))]
            [Loop.readConsole, Loop.readWebsocket, Loop.readWebsocket, Loop.readConsole,
              Loop.readConsole])).returned
          = some (GoError.foreign 1) := by
  have hret : ∀ s : Running,
      (connectAfter wrap url origin authHeader allowInsecure ws s).returned = s.received := by
    intro s
    unfold connectAfter connect
    cases s.received <;> rfl
  have hwins : ∀ (who : Loop) (pre : List Event) (e : GoError),
      Running.todo ⟨readConsole W 0 rs, readWebsocket wrap fs, [], none⟩ who
        = pre ++ [Event.Send e] →
      (∀ e0, Event.Send e0 ∉ pre) →
      (∀ who1, who1 ≠ who → ∀ e0, Event.Send e0 ∉
        Running.todo ⟨readConsole W 0 rs, readWebsocket wrap fs, [], none⟩ who1) →
      ((runLoops W rs wrap fs schedule).received = none
          ∨ (runLoops W rs wrap fs schedule).received = some e)
        ∧ (pre.length + 1 ≤ schedule.count who →
          (runLoops W rs wrap fs schedule).received = some e) := by
    intro who pre e htodo hpre hother
    refine loop_wins who schedule _ pre e htodo ?_ ?_ rfl
    · intro ev hev
      exact (sendOf_eq_none ev).2 (fun e0 h0 => hpre e0 (h0 ▸ hev))
    · intro who1 hne ev hev
      exact (sendOf_eq_none ev).2 (fun e0 h0 => hother who1 hne e0 (h0 ▸ hev))
  refine ⟨hret _, ?_, ?_, ?_, ?_, ?_, ?_, ?_, ?_, ?_, ?_⟩
  · intro rlCloseReturns
    unfold handedToCaller connectAfter connect
    cases (runLoops W rs wrap fs schedule).received <;> cases rlCloseReturns <;> simp
  · unfold connectAfter connect
    cases (runLoops W rs wrap fs schedule).received <;> simp [receiveOf]
  · exact run_invariant (fun s => s.done.filterMap sendOf = s.received.toList)
      (fun who s h => step_done who s h) schedule _ rfl
  · intro e more h
    unfold runLoops
    rw [run_append]
    exact run_received more _ e h
  · exact (run_invariant
      (fun s => (∀ who1, ∀ x ∈ s.todo who1,
          x ∈ Running.todo ⟨readConsole W 0 rs, readWebsocket wrap fs, [], none⟩ who1)
        ∧ ∀ e, s.received = some e →
          Event.Send e ∈ readConsole W 0 rs ∨ Event.Send e ∈ readWebsocket wrap fs)
      (fun who s h => step_origin _ _ who s h) schedule _
      ⟨fun _ _ hx => hx, fun e he => by cases he⟩).2
  · intro line e hmem hsock
    obtain ⟨pre0, post, htr⟩ := List.append_of_mem hmem
    obtain ⟨m, rest, hs⟩ := readConsole_suffix W rs 0 pre0 post line (some e) htr
    simp only [readConsole, List.cons.injEq, true_and] at hs
    subst hs
    have htr1 : readConsole W 0 rs
        = (pre0 ++ [Event.Readline line (some e)]) ++ Event.Send e :: [] := by
      rw [htr]; simp
    have hno := (readConsole_send W rs 0 _ [] e htr1).2.1
    have hw := hwins Loop.readConsole (pre0 ++ [Event.Readline line (some e)]) e htr1 hno
      (by
        intro who1 hne e0
        cases who1
        · exact absurd rfl hne
        · exact hsock e0)
    refine ⟨hw.1, fun hlen => ?_⟩
    rw [hret]
    refine hw.2 ?_
    rw [htr1] at hlen
    simpa using hlen
  · intro t p e hmem hcons
    obtain ⟨pre0, post, htr⟩ := List.append_of_mem hmem
    obtain ⟨-, rest, -, hs⟩ := readWebsocket_suffix wrap fs pre0 post t p (some e) htr
    simp only [readWebsocket, List.cons.injEq, true_and] at hs
    subst hs
    have htr1 : readWebsocket wrap fs
        = (pre0 ++ [Event.ReadMessage t p (some e)]) ++ Event.Send e :: [] := by
      rw [htr]; simp
    have hno := (readWebsocket_send wrap fs _ [] e htr1).2.1
    have hw := hwins Loop.readWebsocket (pre0 ++ [Event.ReadMessage t p (some e)]) e htr1 hno
      (by
        intro who1 hne e0
        cases who1
        · exact hcons e0
        · exact absurd rfl hne)
    refine ⟨hw.1, fun hlen => ?_⟩
    rw [hret]
    refine hw.2 ?_
    rw [htr1] at hlen
    simpa using hlen
  · rw [show ∀ s : Running,
      (connectAfter id url origin authHeader allowInsecure ws s).returned = s.received from
      fun s => by unfold connectAfter connect; cases s.received <;> rfl]
    decide
  · rw [show ∀ s : Running,
      (connectAfter id url origin authHeader allowInsecure ws s).returned = s.received from
      fun s => by unfold connectAfter connect; cases s.received <;> rfl]
    decide
  · rw [show ∀ s : Running,
      (connectAfter id url origin authHeader allowInsecure ws s).returned = s.received from
      fun s => by unfold connectAfter connect; cases s.received <;> rfl]
    decide

/-- C6: every failure inside a loop is terminal and is passed on unchanged.
In `readConsole`, once `Readline` or `WriteMessage` has returned an error, the
one thing the loop still does is send that error; in `readWebsocket` the same
holds once `ReadMessage` has returned an error.  In both loops a send is the
last event of the run and the only send, and it comes right after the call
whose error it carries (in `readWebsocket` also after a frame that has no
rendering). -/
theorem loops_deliver_first_failure (W : Nat → Int → GoString → Option GoError) (n : Nat)
    (rs : List (GoString × Option GoError)) (wrap : GoString → GoString)
    (fs : List (Int × GoString × Option GoError)) :
    (∀ pre line e post,
        readConsole W n rs = pre ++ Event.Readline line (some e) :: post →
        post = [Event.Send e])
      ∧ (∀ pre t d e post,
        readConsole W n rs = pre ++ Event.WriteMessage t d (some e) :: post →
        post = [Event.Send e])
      ∧ (∀ pre t p e post,
        readWebsocket wrap fs = pre ++ Event.ReadMessage t p (some e) :: post →
        post = [Event.Send e])
      ∧ (∀ pre e post, readConsole W n rs = pre ++ Event.Send e :: post →
        post = [] ∧ (∀ e0, Event.Send e0 ∉ pre)
          ∧ ((∃ pre0 line, pre = pre0 ++ [Event.Readline line (some e)])
            ∨ (∃ pre0 t d, pre = pre0 ++ [Event.WriteMessage t d (some e)])))
      ∧ (∀ pre e post, readWebsocket wrap fs = pre ++ Event.Send e :: post →
        post = [] ∧ (∀ e0, Event.Send e0 ∉ pre)
          ∧ ((∃ pre0 t p, pre = pre0 ++ [Event.ReadMessage t p (some e)])
            ∨ (∃ pre0 t p, pre = pre0 ++ [Event.ReadMessage t p none]
                ∧ t ≠ TextMessage ∧ t ≠ BinaryMessage))) := by
  refine ⟨?_, ?_, ?_, ?_, ?_⟩
  · intro pre line e post h
    obtain ⟨m, rest, hs⟩ := readConsole_suffix W rs n pre post line (some e) h
    simp only [readConsole, List.cons.injEq, true_and] at hs
    exact hs
  · intro pre t d e post h
    obtain ⟨-, -, m, rest, -, -, hpost⟩ := readConsole_write W rs n pre post t d (some e) h
    exact hpost
  · intro pre t p e post h
    obtain ⟨-, rest, -, hs⟩ := readWebsocket_suffix wrap fs pre post t p (some e) h
    simp only [readWebsocket, List.cons.injEq, true_and] at hs
    exact hs
  · intro pre e post h
    exact readConsole_send W rs n pre post e h
  · intro pre e post h
    obtain ⟨hpost, hno, hlast⟩ := readWebsocket_send wrap fs pre post e h
    refine ⟨hpost, hno, ?_⟩
    rcases hlast with hl | ⟨pre0, t, p, hp, hr, -⟩
    · exact Or.inl hl
    · refine Or.inr ⟨pre0, t, p, hp, ?_, ?_⟩
      · intro h1
        simp [rendering, h1] at hr
      · intro h2
        have h3 : BinaryMessage ≠ TextMessage := by decide
        simp [rendering, h2, h3] at hr

/-- C7: the interceptors that `connect` installs augment the default handling.
For every payload `p`, the installed pong handler first writes one display
line, the same for every payload, and then does exactly what the pong handler
that the dialed connection had before does on `p`, returning that handler's
result; the installed ping handler likewise with the ping handler the
connection had before.  Neither refers to the installed handlers nor to the
other direction's handler. -/
theorem connect_interceptors_delegate (wrap : GoString → GoString) :
    ∃ pongLine pingLine : GoString,
      ∀ (url origin authHeader : GoString) (allowInsecure : Bool) (ws : Conn)
        (received : Option GoError),
        ∃ ws1, (connect wrap url origin authHeader allowInsecure (.ok ws) none received).ws
            = some ws1
          ∧ ∀ p, ws1.handlePong p
              = (Event.Fprint pongLine :: (ws.handlePong p).1, (ws.handlePong p).2)
            ∧ ws1.handlePing p
              = (Event.Fprint pingLine :: (ws.handlePing p).1, (ws.handlePing p).2) := by
  refine ⟨wrap (Sprintf (str "< %s\n") [Arg.string (str "< PONG")]),
    wrap (Sprintf (str "< %s\n") [Arg.string (str "> PING")]), ?_⟩
  intro url origin authHeader allowInsecure ws received
  refine ⟨_, connect_ws wrap url origin authHeader allowInsecure ws received, ?_⟩
  intro p
  exact ⟨rfl, rfl⟩

/-- C8, as stated, fails: with no colouring and default handlers that do
nothing, the pong interceptor installed by `connect` writes `< < PONG` and a
newline, not `< PONG` and a newline, and the ping interceptor writes
`< > PING` and a newline, not `> PING` and a newline. -/
theorem connect_interceptor_lines_counterexample :
    ∃ ws1, (connect id (str "ws://h") (str "") (str "") false
        (.ok ⟨fun _ => ([], none), fun _ => ([], none)⟩) none none).ws = some ws1
      ∧ (ws1.handlePong (str "x")).1 = [Event.Fprint (str "< < PONG\n")]
      ∧ (ws1.handlePong (str "x")).1 ≠ [Event.Fprint (str "< PONG\n")]
      ∧ (ws1.handlePing (str "x")).1 = [Event.Fprint (str "< > PING\n")]
      ∧ (ws1.handlePing (str "x")).1 ≠ [Event.Fprint (str "> PING\n")] :=
  ⟨_, rfl, by decide, by decide, by decide, by decide⟩

/-- C8, amended: for every payload, the one line that the pong interceptor
installed by `connect` writes itself is `< < PONG` and a newline, and the one
that the ping interceptor writes is `< > PING` and a newline, each inside the
colour wrapping: the marker goes through the loop's format `< %s` and gets its
prefix.  The text does not depend on the payload. -/
theorem connect_interceptor_lines (wrap : GoString → GoString) (url origin authHeader : GoString)
    (allowInsecure : Bool) (ws : Conn) (received : Option GoError) :
    ∃ ws1, (connect wrap url origin authHeader allowInsecure (.ok ws) none received).ws
        = some ws1
      ∧ ∀ p, (ws1.handlePong p).1
            = Event.Fprint (wrap (str "< < PONG\n")) :: (ws.handlePong p).1
          ∧ (ws1.handlePing p).1
            = Event.Fprint (wrap (str "< > PING\n")) :: (ws.handlePing p).1 := by
  refine ⟨_, connect_ws wrap url origin authHeader allowInsecure ws received, ?_⟩
  intro p
  have h1 : Sprintf (str "< %s\n") [Arg.string (str "< PONG")] = str "< < PONG\n" := by decide
  have h2 : Sprintf (str "< %s\n") [Arg.string (str "> PING")] = str "< > PING\n" := by decide
  constructor
  · show Event.Fprint (wrap (Sprintf (str "< %s\n") [Arg.string (str "< PONG")])) :: _ = _
    rw [h1]
  · show Event.Fprint (wrap (Sprintf (str "< %s\n") [Arg.string (str "> PING")])) :: _ = _
    rw [h2]

/-- C9, as stated, fails: `connect` returns without ever having closed the
connection, both when a loop outcome is received and when console creation
fails after a successful dial. -/
theorem connect_never_closes_connection_counterexample :
    (connect id (str "ws://h") (str "") (str "") false
        (.ok ⟨fun _ => ([], none), fun _ => ([], none)⟩) none
        (some (GoError.foreign 0))).returned = some (GoError.foreign 0)
      ∧ (connect id (str "ws://h") (str "") (str "") false
        (.ok ⟨fun _ => ([], none), fun _ => ([], none)⟩) none
        (some (GoError.foreign 0))).events.count Event.wsClose = 0
      ∧ (connect id (str "ws://h") (str "") (str "") false
        (.ok ⟨fun _ => ([], none), fun _ => ([], none)⟩) (some (GoError.foreign 1))
        none).returned = some (GoError.foreign 1)
      ∧ (connect id (str "ws://h") (str "") (str "") false
        (.ok ⟨fun _ => ([], none), fun _ => ([], none)⟩) (some (GoError.foreign 1))
        none).events.count Event.wsClose = 0 := by
  decide

/-- C9, amended: in every execution of `connect` in which the handshake
succeeds, `connect` never closes the connection.  When console creation
succeeds and a loop outcome `e` is received, `connect` returns `e` and has
closed the console exactly once, as its last call.  When console creation
fails with `e`, `connect` returns `e` and has closed nothing. -/
theorem connect_closes_console_only (wrap : GoString → GoString)
    (url origin authHeader : GoString) (allowInsecure : Bool) (ws : Conn) (e : GoError)
    (newExErr received : Option GoError) :
    (connect wrap url origin authHeader allowInsecure (.ok ws) newExErr received).events.count
        Event.wsClose = 0
      ∧ (connect wrap url origin authHeader allowInsecure (.ok ws) none (some e)).returned
          = some e
      ∧ (connect wrap url origin authHeader allowInsecure (.ok ws) none (some e)).events.count
          Event.rlClose = 1
      ∧ (connect wrap url origin authHeader allowInsecure (.ok ws) none
          (some e)).events.getLast? = some Event.rlClose
      ∧ (connect wrap url origin authHeader allowInsecure (.ok ws) (some e) received).returned
          = some e
      ∧ (connect wrap url origin authHeader allowInsecure (.ok ws) (some e)
          received).events.count Event.rlClose = 0 := by
  refine ⟨?_, rfl, ?_, ?_, rfl, ?_⟩
  · cases newExErr <;> cases received <;> simp [connect, List.count_cons]
  · simp [connect, List.count_cons]
  · simp [connect]
  · simp [connect, List.count_cons]

/-- C10: for every origin and authHeader, the header set that `connect` hands
to the dial holds the key `Origin` with the single value origin (also when
origin is empty), then the key `Authorization` with the single value
authHeader exactly when authHeader is not empty, and nothing else; the dial is
the first call `connect` makes and the only dial; and when the dial fails,
`connect` makes no other call (no console, no loop) and returns the dial's
error. -/
theorem connect_handshake_headers (wrap : GoString → GoString)
    (url origin authHeader : GoString) (allowInsecure : Bool) (dialed : Except GoError Conn)
    (newExErr received : Option GoError) :
    connectHeaders origin authHeader
        = (str "Origin", [origin])
          :: (if authHeader = [] then [] else [(str "Authorization", [authHeader])])
      ∧ connectHeaders [] [] = [(str "Origin", [[]])]
      ∧ (∃ tl, (connect wrap url origin authHeader allowInsecure dialed newExErr received).events
          = Event.Dial url (connectHeaders origin authHeader) allowInsecure :: tl
          ∧ ∀ u h i, Event.Dial u h i ∉ tl)
      ∧ (∀ err,
          (connect wrap url origin authHeader allowInsecure (.error err) newExErr received).events
            = [Event.Dial url (connectHeaders origin authHeader) allowInsecure]
          ∧ (connect wrap url origin authHeader allowInsecure (.error err) newExErr
              received).returned = some err) := by
  refine ⟨?_, by decide, ?_, fun err => ⟨rfl, rfl⟩⟩
  · have h1 : CanonicalMIMEHeaderKey (str "Origin") = str "Origin" := by decide
    have h2 : CanonicalMIMEHeaderKey (str "Authorization") = str "Authorization" := by decide
    have h3 : str "Origin" ≠ str "Authorization" := by decide
    have h4 : str "" = ([] : GoString) := by decide
    unfold connectHeaders
    by_cases ha : authHeader = []
    · simp [ha, h4, Header.Add, Header.append, h1]
    · simp [ha, h4, Header.Add, Header.append, h1, h2, h3]
  · cases dialed with
    | error err => exact ⟨[], rfl, by simp⟩
    | ok ws =>
      cases newExErr with
      | some e => exact ⟨_, rfl, by simp⟩
      | none =>
        cases received with
        | none => exact ⟨_, rfl, by simp⟩
        | some e => exact ⟨_, rfl, by simp⟩

end Ws
